import Mathlib

/-!
Verification of the peer-to-peer CRDT synchronization core: a shallow
embedding of the hybrid logical clock, the LWW-Map CRDT, the peer manager's
negotiation rules, the signaling message filters and the sync engine's
anti-entropy protocol, together with theorems settling the specification's
claims about them.

Conventions of the embedding:
- JavaScript numbers holding wall-clock readings and counters are modelled
  as Nat (they are nonnegative integers well below 2^53 here, so no
  overflow semantics are involved); comparator results are Int.
- A JavaScript Map is modelled as an association list with insertion-order
  set semantics (updating an existing key rewrites it in place, a new key
  is appended).
- Date.now() is an external input and is passed as an explicit wall-clock
  argument to every operation that reads it.
- Listener callbacks may throw; a callback is modelled by the Except result
  its invocation would produce.
-/

/-- Hybrid logical clock timestamp: wall-clock time, logical counter and
the node identifier used as a tie-breaker (types.ts, HLCTimestamp). -/
structure HLCTimestamp where
  time : Nat
  counter : Nat
  nodeId : String
deriving DecidableEq, Repr

/-- Kernel-reducible decidability for the lexicographic order on strings,
routed through the character list so that concrete instances evaluate by
decide. It decides the same proposition as the library instance, so the
definitions below are unaffected semantically. -/
instance (priority := 2000) stringDecLtViaList (s t : String) :
    Decidable (s < t) :=
  decidable_of_iff (s.toList < t.toList) String.lt_iff_toList_lt.symm

/-- Comparator on HLC timestamps from hlc.ts: compares time, then counter,
then nodeId in string order; negative means the first is smaller. -/
def compareTimestamps (a b : HLCTimestamp) : Int :=
  if a.time ≠ b.time then (a.time : Int) - (b.time : Int)
  else if a.counter ≠ b.counter then (a.counter : Int) - (b.counter : Int)
  else if a.nodeId < b.nodeId then -1
  else if b.nodeId < a.nodeId then 1
  else 0

/-- Strict lexicographic order on (time, counter, nodeId); the order that
compareTimestamps decides. -/
def tsLt (a b : HLCTimestamp) : Prop :=
  a.time < b.time ∨
    (a.time = b.time ∧
      (a.counter < b.counter ∨ (a.counter = b.counter ∧ a.nodeId < b.nodeId)))

instance (a b : HLCTimestamp) : Decidable (tsLt a b) := by
  unfold tsLt; infer_instance

theorem tsLt_irrefl (a : HLCTimestamp) : ¬ tsLt a a := by
  simp [tsLt]

theorem tsLt_trans {a b c : HLCTimestamp} (hab : tsLt a b) (hbc : tsLt b c) :
    tsLt a c := by
  rcases hab with h1 | ⟨e1, h1⟩
  · rcases hbc with h2 | ⟨e2, h2⟩
    · exact Or.inl (Nat.lt_trans h1 h2)
    · exact Or.inl (e2 ▸ h1)
  · rcases hbc with h2 | ⟨e2, h2⟩
    · exact Or.inl (e1 ▸ h2)
    · refine Or.inr ⟨e1.trans e2, ?_⟩
      rcases h1 with h1 | ⟨f1, h1⟩
      · rcases h2 with h2 | ⟨f2, h2⟩
        · exact Or.inl (Nat.lt_trans h1 h2)
        · exact Or.inl (f2 ▸ h1)
      · rcases h2 with h2 | ⟨f2, h2⟩
        · exact Or.inl (f1 ▸ h2)
        · exact Or.inr ⟨f1.trans f2, lt_trans h1 h2⟩

theorem tsLt_asymm {a b : HLCTimestamp} (h : tsLt a b) : ¬ tsLt b a :=
  fun h' => tsLt_irrefl a (tsLt_trans h h')

theorem tsLt_trichotomy (a b : HLCTimestamp) : tsLt a b ∨ a = b ∨ tsLt b a := by
  rcases Nat.lt_trichotomy a.time b.time with ht | ht | ht
  · exact Or.inl (Or.inl ht)
  · rcases Nat.lt_trichotomy a.counter b.counter with hc | hc | hc
    · exact Or.inl (Or.inr ⟨ht, Or.inl hc⟩)
    · rcases lt_trichotomy a.nodeId b.nodeId with hn | hn | hn
      · exact Or.inl (Or.inr ⟨ht, Or.inr ⟨hc, hn⟩⟩)
      · refine Or.inr (Or.inl ?_)
        cases a; cases b; simp_all
      · exact Or.inr (Or.inr (Or.inr ⟨ht.symm, Or.inr ⟨hc.symm, hn⟩⟩))
    · exact Or.inr (Or.inr (Or.inr ⟨ht.symm, Or.inl hc⟩))
  · exact Or.inr (Or.inr (Or.inl ht))

theorem compareTimestamps_lt_iff (a b : HLCTimestamp) :
    compareTimestamps a b < 0 ↔ tsLt a b := by
  unfold compareTimestamps tsLt
  by_cases ht : a.time ≠ b.time
  · rw [if_pos ht]
    constructor
    · intro h; exact Or.inl (by omega)
    · rintro (h | ⟨h, _⟩)
      · omega
      · exact absurd h ht
  · rw [if_neg ht]
    have hteq : a.time = b.time := not_ne_iff.mp ht
    by_cases hc : a.counter ≠ b.counter
    · rw [if_pos hc]
      constructor
      · intro h; exact Or.inr ⟨hteq, Or.inl (by omega)⟩
      · rintro (h | ⟨_, h | ⟨h, _⟩⟩)
        · omega
        · omega
        · exact absurd h hc
    · have hceq : a.counter = b.counter := not_ne_iff.mp hc
      rw [if_neg hc]
      by_cases hn : a.nodeId < b.nodeId
      · rw [if_pos hn]
        constructor
        · intro _; exact Or.inr ⟨hteq, Or.inr ⟨hceq, hn⟩⟩
        · intro _; omega
      · rw [if_neg hn]
        by_cases hn' : b.nodeId < a.nodeId
        · rw [if_pos hn']
          constructor
          · intro h; omega
          · rintro (h | ⟨_, h | ⟨_, h⟩⟩)
            · omega
            · omega
            · exact absurd h hn
        · rw [if_neg hn']
          constructor
          · intro h; omega
          · rintro (h | ⟨_, h | ⟨_, h⟩⟩)
            · omega
            · omega
            · exact absurd h hn

theorem compareTimestamps_eq_zero_iff (a b : HLCTimestamp) :
    compareTimestamps a b = 0 ↔ a = b := by
  unfold compareTimestamps
  constructor
  · intro h
    by_cases ht : a.time ≠ b.time
    · simp only [if_pos ht] at h; omega
    · simp only [if_neg ht] at h
      by_cases hc : a.counter ≠ b.counter
      · simp only [if_pos hc] at h; omega
      · simp only [if_neg hc] at h
        by_cases hn : a.nodeId < b.nodeId
        · simp only [if_pos hn] at h; omega
        · simp only [if_neg hn] at h
          by_cases hn' : b.nodeId < a.nodeId
          · simp only [if_pos hn'] at h; omega
          · have : a.nodeId = b.nodeId := le_antisymm (not_lt.mp hn') (not_lt.mp hn)
            cases a; cases b; simp_all
  · intro h
    subst h
    simp

theorem compareTimestamps_flip (a b : HLCTimestamp) :
    compareTimestamps b a = -compareTimestamps a b := by
  unfold compareTimestamps
  by_cases ht : a.time ≠ b.time
  · simp only [if_pos ht, if_pos (Ne.symm ht)]; omega
  · have ht' : b.time = a.time := (not_ne_iff.mp ht).symm
    simp only [if_neg ht, if_neg (not_ne_iff.mpr ht')]
    by_cases hc : a.counter ≠ b.counter
    · simp only [if_pos hc, if_pos (Ne.symm hc)]; omega
    · have hc' : b.counter = a.counter := (not_ne_iff.mp hc).symm
      simp only [if_neg hc, if_neg (not_ne_iff.mpr hc')]
      rcases lt_trichotomy a.nodeId b.nodeId with hn | hn | hn
      · rw [if_neg (lt_asymm hn), if_pos hn, if_pos hn]
        decide
      · rw [hn]
        rw [if_neg (lt_irrefl b.nodeId), if_neg (lt_irrefl b.nodeId)]
        decide
      · rw [if_pos hn, if_neg (lt_asymm hn), if_pos hn]

theorem compareTimestamps_pos_iff (a b : HLCTimestamp) :
    0 < compareTimestamps a b ↔ tsLt b a := by
  rw [show compareTimestamps a b = -compareTimestamps b a by
        rw [compareTimestamps_flip]]
  constructor
  · intro h
    exact (compareTimestamps_lt_iff b a).mp (by omega)
  · intro h
    have := (compareTimestamps_lt_iff b a).mpr h
    omega

theorem compareTimestamps_nonneg_iff (a b : HLCTimestamp) :
    0 ≤ compareTimestamps a b ↔ ¬ tsLt a b := by
  constructor
  · intro h hlt
    have := (compareTimestamps_lt_iff a b).mpr hlt
    omega
  · intro h
    by_contra h'
    exact h ((compareTimestamps_lt_iff a b).mp (by omega))

/-- Hybrid logical clock state from hlc.ts: highest wall-clock value seen,
logical counter and the fixed node id. -/
structure HLC where
  time : Nat
  counter : Nat
  nodeId : String
deriving DecidableEq, Repr

/-- Clock state produced by the HLC constructor: time and counter start at
zero (hlc.ts lines 16-20). -/
def HLC.mkClock (nodeId : String) : HLC :=
  { time := 0, counter := 0, nodeId := nodeId }

/-- Embedding of HLC.now (hlc.ts lines 23-34); the wall-clock reading of
Date.now() is the explicit first argument. Returns the generated timestamp
together with the updated clock state. -/
def HLC.now (wallClock : Nat) (st : HLC) : HLCTimestamp × HLC :=
  if wallClock > st.time then
    (⟨wallClock, 0, st.nodeId⟩, { st with time := wallClock, counter := 0 })
  else
    (⟨st.time, st.counter + 1, st.nodeId⟩, { st with counter := st.counter + 1 })

/-- Embedding of HLC.receive (hlc.ts lines 37-54): merge a remote timestamp
and advance the local clock. -/
def HLC.receive (wallClock : Nat) (st : HLC) (remote : HLCTimestamp) :
    HLCTimestamp × HLC :=
  let maxTime := max wallClock (max st.time remote.time)
  let counter' :=
    if maxTime = st.time ∧ maxTime = remote.time then
      max st.counter remote.counter + 1
    else if maxTime = st.time then
      st.counter + 1
    else if maxTime = remote.time then
      remote.counter + 1
    else
      0
  (⟨maxTime, counter', st.nodeId⟩,
    { st with time := maxTime, counter := counter' })

/-- Association-list model of a JavaScript Map keyed by strings: updating
an existing key rewrites its binding in place, a new key is appended. -/
def jsMapSet {α : Type} : List (String × α) → String → α → List (String × α)
  | [], k, v => [(k, v)]
  | (k', v') :: rest, k, v =>
    if k' = k then (k, v) :: rest else (k', v') :: jsMapSet rest k v

/-- Lookup in the association-list model of a JavaScript Map. -/
def jsMapGet {α : Type} : List (String × α) → String → Option α
  | [], _ => none
  | (k', v') :: rest, k => if k' = k then some v' else jsMapGet rest k

theorem jsMapGet_set_self {α : Type} (l : List (String × α)) (k : String) (v : α) :
    jsMapGet (jsMapSet l k v) k = some v := by
  induction l with
  | nil => simp [jsMapSet, jsMapGet]
  | cons p rest ih =>
    obtain ⟨k', v'⟩ := p
    by_cases h : k' = k
    · simp [jsMapSet, jsMapGet, h]
    · simp only [jsMapSet, if_neg h, jsMapGet]
      exact ih

theorem jsMapGet_set_ne {α : Type} (l : List (String × α)) (k k' : String) (v : α)
    (h : k' ≠ k) : jsMapGet (jsMapSet l k v) k' = jsMapGet l k' := by
  induction l with
  | nil =>
    simp only [jsMapSet, jsMapGet]
    rw [if_neg (fun e => h (Eq.symm e))]
  | cons p rest ih =>
    obtain ⟨k0, v0⟩ := p
    by_cases h0 : k0 = k
    · subst h0
      simp only [jsMapSet, if_pos rfl, jsMapGet]
      rw [if_neg (fun e => h (Eq.symm e)), if_neg (fun e => h (Eq.symm e))]
    · simp only [jsMapSet, if_neg h0, jsMapGet]
      by_cases h1 : k0 = k'
      · rw [if_pos h1, if_pos h1]
      · rw [if_neg h1, if_neg h1]
        exact ih

/-- Value record stored per key in the LWW-Map: the value, its HLC
timestamp, and the tombstone flag (types.ts, LWWEntry). -/
structure LWWEntry (α : Type) where
  value : α
  timestamp : HLCTimestamp
  deleted : Bool
deriving DecidableEq

/-- Wire/event representation of one entry mutation (types.ts, CRDTChange). -/
structure CRDTChange (α : Type) where
  key : String
  value : α
  timestamp : HLCTimestamp
  deleted : Bool
deriving DecidableEq

/-- Entry a change writes when it is accepted (lww-map.ts, applyRemote
stores value, timestamp and deleted copied from the change). -/
def CRDTChange.toEntry {α : Type} (c : CRDTChange α) : LWWEntry α :=
  { value := c.value, timestamp := c.timestamp, deleted := c.deleted }

/-- State of one LWW-Map instance (lww-map.ts): the entries map and the
clock. The listener set is represented by its observable effect: the
number of notify() rounds fired so far. -/
structure LWWMap (α : Type) where
  entries : List (String × LWWEntry α)
  clock : HLC
  notifications : Nat
deriving DecidableEq

/-- LWW-Map freshly constructed from a node id (lww-map.ts constructor
with a string argument: a new HLC seeded with that id, no entries). -/
def LWWMap.seed {α : Type} (nodeId : String) : LWWMap α :=
  { entries := [], clock := HLC.mkClock nodeId, notifications := 0 }

/-- Embedding of LWWMap.set (lww-map.ts lines 34-40): take a fresh
timestamp from the clock, store a live entry, notify, and return the
produced change. -/
def LWWMap.set {α : Type} (wallClock : Nat) (st : LWWMap α) (key : String)
    (value : α) : CRDTChange α × LWWMap α :=
  let p := HLC.now wallClock st.clock
  (⟨key, value, p.1, false⟩,
    { entries := jsMapSet st.entries key ⟨value, p.1, false⟩,
      clock := p.2,
      notifications := st.notifications + 1 })

/-- Embedding of LWWMap.delete (lww-map.ts lines 43-56): a missing or
already tombstoned key is a no-op returning null; otherwise a tombstone
retaining the prior value is stored under a fresh timestamp. -/
def LWWMap.delete {α : Type} (wallClock : Nat) (st : LWWMap α) (key : String) :
    Option (CRDTChange α) × LWWMap α :=
  match jsMapGet st.entries key with
  | none => (none, st)
  | some existing =>
    if existing.deleted then (none, st)
    else
      let p := HLC.now wallClock st.clock
      (some ⟨key, existing.value, p.1, true⟩,
        { entries := jsMapSet st.entries key ⟨existing.value, p.1, true⟩,
          clock := p.2,
          notifications := st.notifications + 1 })

/-- Embedding of LWWMap.get (lww-map.ts lines 59-63): the value unless the
entry is missing or tombstoned. -/
def LWWMap.get {α : Type} (st : LWWMap α) (key : String) : Option α :=
  match jsMapGet st.entries key with
  | none => none
  | some e => if e.deleted then none else some e.value

/-- Embedding of LWWMap.getEntry (lww-map.ts lines 66-68). -/
def LWWMap.getEntry {α : Type} (st : LWWMap α) (key : String) :
    Option (LWWEntry α) :=
  jsMapGet st.entries key

/-- Embedding of LWWMap.getAll (lww-map.ts lines 71-79) viewed
extensionally: the live value an all-non-deleted-entries record holds at
a given key. -/
def LWWMap.getAll {α : Type} (st : LWWMap α) (key : String) : Option α :=
  match jsMapGet st.entries key with
  | none => none
  | some e => if e.deleted then none else some e.value

/-- Embedding of LWWMap.getKnownEntries (lww-map.ts lines 82-88): every
key, tombstoned or not, with its timestamp. -/
def LWWMap.getKnownEntries {α : Type} (st : LWWMap α) :
    List (String × HLCTimestamp) :=
  st.entries.map (fun p => (p.1, p.2.timestamp))

/-- Embedding of LWWMap.applyRemote (lww-map.ts lines 94-109): always
merge the change's timestamp into the clock, then accept the change iff
there is no local entry or the local entry's timestamp compares older. -/
def LWWMap.applyRemote {α : Type} (wallClock : Nat) (st : LWWMap α)
    (change : CRDTChange α) : Bool × LWWMap α :=
  let clock' := (HLC.receive wallClock st.clock change.timestamp).2
  match jsMapGet st.entries change.key with
  | some existing =>
    if compareTimestamps existing.timestamp change.timestamp ≥ 0 then
      (false, { st with clock := clock' })
    else
      (true,
        { entries := jsMapSet st.entries change.key change.toEntry,
          clock := clock',
          notifications := st.notifications + 1 })
  | none =>
    (true,
      { entries := jsMapSet st.entries change.key change.toEntry,
        clock := clock',
        notifications := st.notifications + 1 })

/-- Loop body of LWWMap.merge (lww-map.ts lines 118-131): per remote
entry, merge its timestamp into the clock and accept it iff there is no
local entry or the local one compares older; accepted entries are stored
as-is and recorded in the applied list. The wall clock is read once per
iteration, so it is a function of the iteration index. -/
def LWWMap.mergeLoop {α : Type} (wallClock : Nat → Nat) (st : LWWMap α) :
    List (String × LWWEntry α) → LWWMap α × List (CRDTChange α)
  | [] => (st, [])
  | (key, remoteEntry) :: rest =>
    let clock' := (HLC.receive (wallClock 0) st.clock remoteEntry.timestamp).2
    match jsMapGet st.entries key with
    | some local_ =>
      if compareTimestamps local_.timestamp remoteEntry.timestamp < 0 then
        let st' : LWWMap α :=
          { entries := jsMapSet st.entries key remoteEntry,
            clock := clock', notifications := st.notifications }
        let r := LWWMap.mergeLoop (fun i => wallClock (i + 1)) st' rest
        (r.1,
          ⟨key, remoteEntry.value, remoteEntry.timestamp, remoteEntry.deleted⟩
            :: r.2)
      else
        LWWMap.mergeLoop (fun i => wallClock (i + 1)) { st with clock := clock' } rest
    | none =>
      let st' : LWWMap α :=
        { entries := jsMapSet st.entries key remoteEntry,
          clock := clock', notifications := st.notifications }
      let r := LWWMap.mergeLoop (fun i => wallClock (i + 1)) st' rest
      (r.1,
        ⟨key, remoteEntry.value, remoteEntry.timestamp, remoteEntry.deleted⟩
          :: r.2)

/-- Embedding of LWWMap.merge (lww-map.ts lines 115-137): run the loop
over the remote snapshot, then notify once iff anything was applied;
returns the new state and the applied changes. -/
def LWWMap.merge {α : Type} (wallClock : Nat → Nat) (st : LWWMap α)
    (remoteEntries : List (String × LWWEntry α)) :
    LWWMap α × List (CRDTChange α) :=
  let r := LWWMap.mergeLoop wallClock st remoteEntries
  (if r.2.length > 0 then
      { r.1 with notifications := r.1.notifications + 1 }
    else r.1,
    r.2)

/-- Embedding of LWWMap.diffFrom (lww-map.ts lines 143-154): every local
entry whose key the remote does not know, or knows only under a strictly
older timestamp. -/
def LWWMap.diffFrom {α : Type} (st : LWWMap α)
    (remoteKnown : List (String × HLCTimestamp)) :
    List (String × LWWEntry α) :=
  st.entries.filter (fun p =>
    match jsMapGet remoteKnown p.1 with
    | none => true
    | some remoteTs => decide (0 < compareTimestamps p.2.timestamp remoteTs))

/-- Sequential application of remote changes to one map via applyRemote;
each element pairs the Date.now() reading at that step with the change. -/
def applyRemoteList {α : Type} (st : LWWMap α) :
    List (Nat × CRDTChange α) → LWWMap α
  | [] => st
  | step :: rest =>
    applyRemoteList (LWWMap.applyRemote step.1 st step.2).2 rest

/-- Running winner of a list of changes under the LWW acceptance rule: a
later change replaces the current winner exactly when the winner's
timestamp compares strictly older. -/
def runBest {α : Type} (acc : Option (CRDTChange α)) :
    List (CRDTChange α) → Option (CRDTChange α)
  | [] => acc
  | c :: cs =>
    runBest
      (match acc with
        | none => some c
        | some b =>
          if compareTimestamps b.timestamp c.timestamp < 0 then some c
          else some b) cs

theorem applyRemote_entries_lookup {α : Type} (wallClock : Nat)
    (st : LWWMap α) (c : CRDTChange α) (k : String) :
    jsMapGet ((LWWMap.applyRemote wallClock st c).2).entries k =
      if c.key = k then
        match jsMapGet st.entries c.key with
        | none => some c.toEntry
        | some e =>
          if compareTimestamps e.timestamp c.timestamp < 0 then
            some c.toEntry
          else some e
      else jsMapGet st.entries k := by
  unfold LWWMap.applyRemote
  cases hg : jsMapGet st.entries c.key with
  | none =>
    simp only [hg]
    by_cases hk : c.key = k
    · subst hk
      rw [if_pos rfl, jsMapGet_set_self]
    · rw [if_neg hk, jsMapGet_set_ne _ _ _ _ (fun e => hk (Eq.symm e))]
  | some e =>
    simp only [hg]
    by_cases hcmp : compareTimestamps e.timestamp c.timestamp ≥ 0
    · rw [if_pos hcmp]
      by_cases hk : c.key = k
      · subst hk
        rw [if_pos rfl, if_neg (by omega :
          ¬ compareTimestamps e.timestamp c.timestamp < 0)]
        exact hg
      · rw [if_neg hk]
    · rw [if_neg hcmp]
      by_cases hk : c.key = k
      · subst hk
        rw [if_pos rfl, if_pos (by omega :
          compareTimestamps e.timestamp c.timestamp < 0)]
        exact jsMapGet_set_self ..
      · rw [if_neg hk]
        exact jsMapGet_set_ne _ _ _ _ (fun e => hk (Eq.symm e))

theorem applyRemoteList_lookup {α : Type} (k : String) :
    ∀ (p : List (Nat × CRDTChange α)) (st : LWWMap α)
      (acc : Option (CRDTChange α)),
      jsMapGet st.entries k = Option.map CRDTChange.toEntry acc →
      jsMapGet (applyRemoteList st p).entries k =
        Option.map CRDTChange.toEntry
          (runBest acc
            ((p.map Prod.snd).filter (fun c => decide (c.key = k)))) := by
  intro p
  induction p with
  | nil =>
    intro st acc h
    simpa [applyRemoteList, runBest] using h
  | cons hd rest ih =>
    intro st acc h
    obtain ⟨wc, c⟩ := hd
    have hstep := applyRemote_entries_lookup wc st c k
    by_cases hk : c.key = k
    · rw [if_pos hk, hk, h] at hstep
      have hfilter :
          (((⟨wc, c⟩ : Nat × CRDTChange α) :: rest).map Prod.snd).filter
              (fun c => decide (c.key = k)) =
            c :: ((rest.map Prod.snd).filter (fun c => decide (c.key = k))) := by
        simp [hk]
      rw [hfilter]
      show jsMapGet (applyRemoteList (LWWMap.applyRemote wc st c).2 rest).entries k = _
      cases acc with
      | none => exact ih _ (some c) hstep
      | some b =>
        have hred : jsMapGet ((LWWMap.applyRemote wc st c).2).entries k =
            (if compareTimestamps b.timestamp c.timestamp < 0 then
              some (CRDTChange.toEntry c)
            else some (CRDTChange.toEntry b)) := hstep
        rw [show runBest (some b)
              (c :: (rest.map Prod.snd).filter (fun c => decide (c.key = k))) =
            runBest
              (if compareTimestamps b.timestamp c.timestamp < 0 then some c
                else some b)
              ((rest.map Prod.snd).filter (fun c => decide (c.key = k))) from rfl]
        by_cases hb : compareTimestamps b.timestamp c.timestamp < 0
        · rw [if_pos hb]
          rw [if_pos hb] at hred
          exact ih _ (some c) hred
        · rw [if_neg hb]
          rw [if_neg hb] at hred
          exact ih _ (some b) hred
    · rw [if_neg hk] at hstep
      have hfilter :
          (((⟨wc, c⟩ : Nat × CRDTChange α) :: rest).map Prod.snd).filter
              (fun c => decide (c.key = k)) =
            (rest.map Prod.snd).filter (fun c => decide (c.key = k)) := by
        simp [hk]
      rw [hfilter]
      show jsMapGet (applyRemoteList (LWWMap.applyRemote wc st c).2 rest).entries k = _
      exact ih _ acc (hstep.trans h)

theorem runBest_cons_none {α : Type} (c : CRDTChange α) (cs : List (CRDTChange α)) :
    runBest none (c :: cs) = runBest (some c) cs := rfl

theorem runBest_cons_some {α : Type} (b c : CRDTChange α) (cs : List (CRDTChange α)) :
    runBest (some b) (c :: cs) =
      runBest
        (if compareTimestamps b.timestamp c.timestamp < 0 then some c
          else some b) cs := rfl

theorem runBest_some_ex {α : Type} :
    ∀ (cs : List (CRDTChange α)) (b : CRDTChange α),
      ∃ m, runBest (some b) cs = some m := by
  intro cs
  induction cs with
  | nil => intro b; exact ⟨b, rfl⟩
  | cons c cs ih =>
    intro b
    rw [runBest_cons_some]
    by_cases hb : compareTimestamps b.timestamp c.timestamp < 0
    · rw [if_pos hb]; exact ih c
    · rw [if_neg hb]; exact ih b

theorem runBest_mem {α : Type} :
    ∀ (cs : List (CRDTChange α)) (acc : Option (CRDTChange α))
      (m : CRDTChange α),
      runBest acc cs = some m → m ∈ cs ∨ acc = some m := by
  intro cs
  induction cs with
  | nil => intro acc m h; exact Or.inr h
  | cons c cs ih =>
    intro acc m h
    cases acc with
    | none =>
      rw [runBest_cons_none] at h
      rcases ih (some c) m h with hm | hm
      · exact Or.inl (List.mem_cons_of_mem c hm)
      · have : c = m := Option.some.inj hm
        rw [← this]
        exact Or.inl (List.mem_cons_self c cs)
    | some b =>
      rw [runBest_cons_some] at h
      by_cases hb : compareTimestamps b.timestamp c.timestamp < 0
      · rw [if_pos hb] at h
        rcases ih (some c) m h with hm | hm
        · exact Or.inl (List.mem_cons_of_mem c hm)
        · have : c = m := Option.some.inj hm
          rw [← this]
          exact Or.inl (List.mem_cons_self c cs)
      · rw [if_neg hb] at h
        rcases ih (some b) m h with hm | hm
        · exact Or.inl (List.mem_cons_of_mem c hm)
        · exact Or.inr hm

theorem runBest_max {α : Type} :
    ∀ (cs : List (CRDTChange α)) (acc : Option (CRDTChange α))
      (m : CRDTChange α),
      runBest acc cs = some m →
      (∀ c ∈ cs, ¬ tsLt m.timestamp c.timestamp) ∧
      (∀ b, acc = some b → ¬ tsLt m.timestamp b.timestamp) := by
  intro cs
  induction cs with
  | nil =>
    intro acc m h
    have h' : acc = some m := h
    constructor
    · intro c hc
      exact absurd hc (List.not_mem_nil c)
    · intro b hb
      rw [h'] at hb
      have hmb : m = b := Option.some.inj hb
      rw [← hmb]
      exact tsLt_irrefl m.timestamp
  | cons c cs ih =>
    intro acc m h
    cases acc with
    | none =>
      rw [runBest_cons_none] at h
      obtain ⟨hcs, hacc⟩ := ih (some c) m h
      constructor
      · intro x hx
        rcases List.mem_cons.mp hx with rfl | hx
        · exact hacc x rfl
        · exact hcs x hx
      · intro b hb
        exact absurd hb (by simp)
    | some b0 =>
      rw [runBest_cons_some] at h
      by_cases hb : compareTimestamps b0.timestamp c.timestamp < 0
      · rw [if_pos hb] at h
        obtain ⟨hcs, hacc⟩ := ih (some c) m h
        have hmc : ¬ tsLt m.timestamp c.timestamp := hacc c rfl
        have hb' : tsLt b0.timestamp c.timestamp :=
          (compareTimestamps_lt_iff _ _).mp hb
        constructor
        · intro x hx
          rcases List.mem_cons.mp hx with rfl | hx
          · exact hmc
          · exact hcs x hx
        · intro b hb2
          have hbe : b0 = b := Option.some.inj hb2
          rw [← hbe]
          intro hmb
          exact hmc (tsLt_trans hmb hb')
      · rw [if_neg hb] at h
        obtain ⟨hcs, hacc⟩ := ih (some b0) m h
        have hmb0 : ¬ tsLt m.timestamp b0.timestamp := hacc b0 rfl
        have hnbc : ¬ tsLt b0.timestamp c.timestamp := by
          intro hx
          exact hb ((compareTimestamps_lt_iff _ _).mpr hx)
        constructor
        · intro x hx
          rcases List.mem_cons.mp hx with rfl | hx
          · intro hmc
            rcases tsLt_trichotomy b0.timestamp x.timestamp with h1 | h1 | h1
            · exact hnbc h1
            · rw [h1] at hmb0
              exact hmb0 hmc
            · exact hmb0 (tsLt_trans hmc h1)
          · exact hcs x hx
        · intro b hb2
          have hbe : b0 = b := Option.some.inj hb2
          rw [← hbe]
          exact hmb0

theorem runBest_congr {α : Type} (l1 l2 : List (CRDTChange α))
    (hmem : ∀ c, c ∈ l1 ↔ c ∈ l2)
    (hdist : ∀ c ∈ l1, ∀ c' ∈ l1,
      compareTimestamps c.timestamp c'.timestamp = 0 → c = c') :
    runBest none l1 = runBest none l2 := by
  cases l1 with
  | nil =>
    cases l2 with
    | nil => rfl
    | cons c2 t2 =>
      exact absurd ((hmem c2).mpr (List.mem_cons_self c2 t2))
        (List.not_mem_nil c2)
  | cons c1 t1 =>
    cases l2 with
    | nil =>
      exact absurd ((hmem c1).mp (List.mem_cons_self c1 t1))
        (List.not_mem_nil c1)
    | cons c2 t2 =>
      obtain ⟨m1, hm1⟩ := runBest_some_ex t1 c1
      obtain ⟨m2, hm2⟩ := runBest_some_ex t2 c2
      have e1 : runBest none (c1 :: t1) = some m1 := by
        rw [runBest_cons_none]; exact hm1
      have e2 : runBest none (c2 :: t2) = some m2 := by
        rw [runBest_cons_none]; exact hm2
      rw [e1, e2]
      have hm1mem : m1 ∈ c1 :: t1 := by
        rcases runBest_mem t1 (some c1) m1 hm1 with h | h
        · exact List.mem_cons_of_mem c1 h
        · have : c1 = m1 := Option.some.inj h
          rw [← this]
          exact List.mem_cons_self c1 t1
      have hm2mem : m2 ∈ c2 :: t2 := by
        rcases runBest_mem t2 (some c2) m2 hm2 with h | h
        · exact List.mem_cons_of_mem c2 h
        · have : c2 = m2 := Option.some.inj h
          rw [← this]
          exact List.mem_cons_self c2 t2
      have hmax1 : ∀ x ∈ c1 :: t1, ¬ tsLt m1.timestamp x.timestamp := by
        obtain ⟨hcs, hacc⟩ := runBest_max t1 (some c1) m1 hm1
        intro x hx
        rcases List.mem_cons.mp hx with rfl | hx
        · exact hacc x rfl
        · exact hcs x hx
      have hmax2 : ∀ x ∈ c2 :: t2, ¬ tsLt m2.timestamp x.timestamp := by
        obtain ⟨hcs, hacc⟩ := runBest_max t2 (some c2) m2 hm2
        intro x hx
        rcases List.mem_cons.mp hx with rfl | hx
        · exact hacc x rfl
        · exact hcs x hx
      have h12 : ¬ tsLt m1.timestamp m2.timestamp :=
        hmax1 m2 ((hmem m2).mpr hm2mem)
      have h21 : ¬ tsLt m2.timestamp m1.timestamp :=
        hmax2 m1 ((hmem m1).mp hm1mem)
      rcases tsLt_trichotomy m1.timestamp m2.timestamp with h | h | h
      · exact absurd h h12
      · have hc0 : compareTimestamps m1.timestamp m2.timestamp = 0 := by
          rw [h]
          exact (compareTimestamps_eq_zero_iff _ _).mpr rfl
        rw [hdist m1 hm1mem m2 ((hmem m2).mpr hm2mem) hc0]
      · exact absurd h h21

/-- C1 (amended): convergence of LWW-Maps under applyRemote. For a finite
set S of CRDTChanges in which distinct changes to the same key never carry
compare-equal timestamps, applying to two maps seeded with distinct node
ids any two sequences that consist of S's changes, each occurring at least
once (any order, duplicates allowed, arbitrary wall-clock readings),
leaves the full entry (value, timestamp and tombstone flag) and the
getAll() view identical on both maps at every key. The original claim,
without the distinct-timestamp proviso, is refuted by
lwwMap_convergence_counterexample. -/
theorem lwwMap_convergence {α : Type} (S : List (CRDTChange α))
    (n1 n2 : String) (hn : n1 ≠ n2)
    (hdist : ∀ c ∈ S, ∀ c' ∈ S, c.key = c'.key →
      compareTimestamps c.timestamp c'.timestamp = 0 → c = c')
    (p1 p2 : List (Nat × CRDTChange α))
    (h1a : ∀ c ∈ p1.map Prod.snd, c ∈ S)
    (h1b : ∀ c ∈ S, c ∈ p1.map Prod.snd)
    (h2a : ∀ c ∈ p2.map Prod.snd, c ∈ S)
    (h2b : ∀ c ∈ S, c ∈ p2.map Prod.snd)
    (k : String) :
    jsMapGet (applyRemoteList (LWWMap.seed n1) p1).entries k =
      jsMapGet (applyRemoteList (LWWMap.seed n2) p2).entries k ∧
    LWWMap.getAll (applyRemoteList (LWWMap.seed n1) p1) k =
      LWWMap.getAll (applyRemoteList (LWWMap.seed n2) p2) k := by
  have e1 := applyRemoteList_lookup k p1 (LWWMap.seed n1) none rfl
  have e2 := applyRemoteList_lookup k p2 (LWWMap.seed n2) none rfl
  have hmem : ∀ c, c ∈ (p1.map Prod.snd).filter (fun c => decide (c.key = k)) ↔
      c ∈ (p2.map Prod.snd).filter (fun c => decide (c.key = k)) := by
    intro c
    constructor
    · intro hc
      obtain ⟨hmemc, hkey⟩ := List.mem_filter.mp hc
      exact List.mem_filter.mpr ⟨h2b c (h1a c hmemc), hkey⟩
    · intro hc
      obtain ⟨hmemc, hkey⟩ := List.mem_filter.mp hc
      exact List.mem_filter.mpr ⟨h1b c (h2a c hmemc), hkey⟩
  have hdist' : ∀ c ∈ (p1.map Prod.snd).filter (fun c => decide (c.key = k)),
      ∀ c' ∈ (p1.map Prod.snd).filter (fun c => decide (c.key = k)),
      compareTimestamps c.timestamp c'.timestamp = 0 → c = c' := by
    intro c hc c' hc' hc0
    obtain ⟨hmc, hkc⟩ := List.mem_filter.mp hc
    obtain ⟨hmc', hkc'⟩ := List.mem_filter.mp hc'
    have hck : c.key = k := of_decide_eq_true hkc
    have hck' : c'.key = k := of_decide_eq_true hkc'
    exact hdist c (h1a c hmc) c' (h1a c' hmc') (hck.trans hck'.symm) hc0
  have hcongr := runBest_congr _ _ hmem hdist'
  constructor
  · rw [e1, e2, hcongr]
  · unfold LWWMap.getAll
    rw [e1, e2, hcongr]

/-- Sample change (key "k", value "a", timestamp (1,0,"x")) for the
convergence witness. -/
def convSampleA : CRDTChange String := ⟨"k", "a", ⟨1, 0, "x"⟩, false⟩

/-- Sample change (key "k", value "b", timestamp (2,0,"y")) for the
convergence witness. -/
def convSampleB : CRDTChange String := ⟨"k", "b", ⟨2, 0, "y"⟩, false⟩

/-- First sample application order: A, B, then A again. -/
def convSeq1 : List (Nat × CRDTChange String) :=
  [(0, convSampleA), (0, convSampleB), (5, convSampleA)]

/-- Second sample application order: B then A. -/
def convSeq2 : List (Nat × CRDTChange String) :=
  [(3, convSampleB), (0, convSampleA)]

/-- Witness for lwwMap_convergence at a concrete instance. -/
theorem lwwMap_convergence_witness :
    jsMapGet (applyRemoteList (LWWMap.seed "m") convSeq1).entries "k" =
      jsMapGet (applyRemoteList (LWWMap.seed "n") convSeq2).entries "k" ∧
    LWWMap.getAll (applyRemoteList (LWWMap.seed "m") convSeq1) "k" =
      LWWMap.getAll (applyRemoteList (LWWMap.seed "n") convSeq2) "k" :=
  lwwMap_convergence [convSampleA, convSampleB] "m" "n" (by decide)
    (by decide) convSeq1 convSeq2 (by decide) (by decide) (by decide)
    (by decide) "k"

/-- Set of changes refuting the unrestricted convergence claim: two
distinct changes to the same key carrying the same timestamp. -/
def convCexS : List (CRDTChange String) :=
  [⟨"k", "a", ⟨1, 0, "x"⟩, false⟩, ⟨"k", "b", ⟨1, 0, "x"⟩, false⟩]

/-- One application order of convCexS. -/
def convCexSeq1 : List (Nat × CRDTChange String) :=
  [(0, ⟨"k", "a", ⟨1, 0, "x"⟩, false⟩), (0, ⟨"k", "b", ⟨1, 0, "x"⟩, false⟩)]

/-- The other application order of convCexS. -/
def convCexSeq2 : List (Nat × CRDTChange String) :=
  [(0, ⟨"k", "b", ⟨1, 0, "x"⟩, false⟩), (0, ⟨"k", "a", ⟨1, 0, "x"⟩, false⟩)]

/-- Counterexample to C1 as stated: two maps seeded with distinct node
ids each apply a sequence containing every change of the set convCexS at
least once, yet getAll() differs between them afterwards, because two
distinct changes to one key share a timestamp and applyRemote keeps
whichever arrived first. -/
theorem lwwMap_convergence_counterexample :
    ("m" : String) ≠ "n" ∧
    convCexSeq1.map Prod.snd = convCexS ∧
    convCexSeq2.map Prod.snd = convCexS.reverse ∧
    LWWMap.getAll (applyRemoteList (LWWMap.seed "m") convCexSeq1) "k" ≠
      LWWMap.getAll (applyRemoteList (LWWMap.seed "n") convCexSeq2) "k" := by
  decide

/-- One call made on an HLC instance: now() or receive(remote), together
with the Date.now() reading observed during that call. -/
inductive ClockOp where
  | now (wallClock : Nat)
  | receive (wallClock : Nat) (remote : HLCTimestamp)
deriving DecidableEq

/-- Dispatch one clock call to the corresponding HLC method. -/
def clockStep (st : HLC) : ClockOp → HLCTimestamp × HLC
  | ClockOp.now wc => HLC.now wc st
  | ClockOp.receive wc remote => HLC.receive wc st remote

/-- Run a sequence of clock calls, collecting the returned timestamps in
order. -/
def runClock (st : HLC) : List ClockOp → List HLCTimestamp × HLC
  | [] => ([], st)
  | op :: ops =>
    let p := clockStep st op
    let r := runClock p.2 ops
    (p.1 :: r.1, r.2)

theorem clockStep_advances (st : HLC) (op : ClockOp) :
    (clockStep st op).1.time = (clockStep st op).2.time ∧
    (clockStep st op).1.counter = (clockStep st op).2.counter ∧
    (clockStep st op).1.nodeId = st.nodeId ∧
    (clockStep st op).2.nodeId = st.nodeId ∧
    (st.time < (clockStep st op).2.time ∨
      (st.time = (clockStep st op).2.time ∧
        st.counter < (clockStep st op).2.counter)) := by
  cases op with
  | now wc =>
    simp only [clockStep, HLC.now]
    by_cases h : wc > st.time
    · rw [if_pos h]
      refine ⟨?_, ?_, ?_, ?_, Or.inl h⟩ <;> first | rfl | trivial
    · rw [if_neg h]
      refine ⟨?_, ?_, ?_, ?_, Or.inr ⟨rfl, Nat.lt_succ_self _⟩⟩ <;>
        first | rfl | trivial
  | receive wc remote =>
    simp only [clockStep, HLC.receive]
    refine ⟨?_, ?_, ?_, ?_, ?_⟩
    case _ => first | rfl | trivial
    case _ => first | rfl | trivial
    case _ => first | rfl | trivial
    case _ => first | rfl | trivial
    have hle : st.time ≤ max wc (max st.time remote.time) :=
      le_trans (le_max_left _ _) (le_max_right _ _)
    by_cases h1 : max wc (max st.time remote.time) = st.time ∧
        max wc (max st.time remote.time) = remote.time
    · rw [if_pos h1]
      refine Or.inr ⟨h1.1.symm, ?_⟩
      have := le_max_left st.counter remote.counter
      omega
    · rw [if_neg h1]
      by_cases h2 : max wc (max st.time remote.time) = st.time
      · rw [if_pos h2]
        exact Or.inr ⟨h2.symm, Nat.lt_succ_self _⟩
      · rw [if_neg h2]
        have hlt : st.time < max wc (max st.time remote.time) := by omega
        by_cases h3 : max wc (max st.time remote.time) = remote.time
        · rw [if_pos h3]
          exact Or.inl hlt
        · rw [if_neg h3]
          exact Or.inl hlt

theorem runClock_out_gt :
    ∀ (ops : List ClockOp) (st : HLC) (t : HLCTimestamp),
      t ∈ (runClock st ops).1 →
      ((st.time < t.time ∨ (st.time = t.time ∧ st.counter < t.counter)) ∧
        t.nodeId = st.nodeId) := by
  intro ops
  induction ops with
  | nil =>
    intro st t ht
    exact absurd ht (List.not_mem_nil t)
  | cons op ops ih =>
    intro st t ht
    obtain ⟨e1, e2, e3, e4, hadv⟩ := clockStep_advances st op
    rcases List.mem_cons.mp ht with rfl | ht
    · constructor
      · rw [e1, e2]
        exact hadv
      · exact e3
    · obtain ⟨hnum, hnode⟩ := ih (clockStep st op).2 t ht
      constructor
      · omega
      · rw [hnode, e4]

theorem runClock_pairwise :
    ∀ (ops : List ClockOp) (st : HLC) (i j : Nat) (hij : i < j)
      (hj : j < (runClock st ops).1.length),
      tsLt ((runClock st ops).1.get ⟨i, Nat.lt_trans hij hj⟩)
        ((runClock st ops).1.get ⟨j, hj⟩) := by
  intro ops
  induction ops with
  | nil =>
    intro st i j hij hj
    exact absurd hj (by simp [runClock])
  | cons op ops ih =>
    intro st i j hij hj
    cases i with
    | zero =>
      cases j with
      | zero => exact absurd hij (lt_irrefl 0)
      | succ j' =>
        have hj' : j' < ((runClock (clockStep st op).2 ops).1).length := by
          have : (runClock st (op :: ops)).1 =
              (clockStep st op).1 :: (runClock (clockStep st op).2 ops).1 := rfl
          rw [this] at hj
          simpa using hj
        have hmem : ((runClock (clockStep st op).2 ops).1).get ⟨j', hj'⟩ ∈
            (runClock (clockStep st op).2 ops).1 := List.get_mem _ _ _
        obtain ⟨hnum, hnode⟩ := runClock_out_gt ops (clockStep st op).2 _ hmem
        obtain ⟨e1, e2, e3, e4, _⟩ := clockStep_advances st op
        show tsLt ((clockStep st op).1) _
        rw [show ((runClock st (op :: ops)).1).get ⟨j' + 1, hj⟩ =
            ((runClock (clockStep st op).2 ops).1).get ⟨j', hj'⟩ from rfl]
        rw [← e1, ← e2] at hnum
        unfold tsLt
        rcases hnum with h | ⟨h1, h2⟩
        · exact Or.inl h
        · exact Or.inr ⟨h1, Or.inl h2⟩
    | succ i' =>
      cases j with
      | zero => exact absurd hij (by omega)
      | succ j' =>
        have hj' : j' < ((runClock (clockStep st op).2 ops).1).length := by
          have : (runClock st (op :: ops)).1 =
              (clockStep st op).1 :: (runClock (clockStep st op).2 ops).1 := rfl
          rw [this] at hj
          simpa using hj
        have := ih (clockStep st op).2 i' j' (by omega) hj'
        exact this

/-- C2: clock monotonicity. For one HLC instance and any finite sequence
of now()/receive() calls with arbitrary wall-clock readings and arbitrary
remote timestamps, every returned timestamp compares strictly greater,
under compareTimestamps, than every timestamp returned earlier by that
instance. -/
theorem hlc_monotonic (nodeId : String) (ops : List ClockOp) (i j : Nat)
    (hij : i < j)
    (hj : j < (runClock (HLC.mkClock nodeId) ops).1.length) :
    compareTimestamps
      ((runClock (HLC.mkClock nodeId) ops).1.get ⟨i, Nat.lt_trans hij hj⟩)
      ((runClock (HLC.mkClock nodeId) ops).1.get ⟨j, hj⟩) < 0 :=
  (compareTimestamps_lt_iff _ _).mpr
    (runClock_pairwise ops (HLC.mkClock nodeId) i j hij hj)

/-- Sample clock call sequence for the monotonicity witness: a stalled
wall clock followed by a receive whose remote timestamp is ahead. -/
def clockSampleOps : List ClockOp :=
  [ClockOp.now 5, ClockOp.now 5, ClockOp.receive 3 ⟨10, 2, "z"⟩]

/-- Witness for hlc_monotonic at a concrete instance. -/
theorem hlc_monotonic_witness :
    compareTimestamps
      ((runClock (HLC.mkClock "A") clockSampleOps).1.get ⟨0, by decide⟩)
      ((runClock (HLC.mkClock "A") clockSampleOps).1.get ⟨2, by decide⟩) < 0 :=
  hlc_monotonic "A" clockSampleOps 0 2 (by decide) (by decide)

/-- C3: applyRemote postcondition. For every map state and change,
applyRemote first merges the change's timestamp into the local clock via
receive, also when the change is rejected; it returns true, stores the
change's entry and fires one notification exactly when no local entry
exists for the key or the local entry's timestamp compares strictly
older; otherwise it returns false and leaves the entries map and the
notification count unchanged. -/
theorem applyRemote_postcondition {α : Type} (wallClock : Nat)
    (st : LWWMap α) (change : CRDTChange α) :
    ((LWWMap.applyRemote wallClock st change).2).clock =
      (HLC.receive wallClock st.clock change.timestamp).2 ∧
    ((LWWMap.applyRemote wallClock st change).1 = true ↔
      jsMapGet st.entries change.key = none ∨
      ∃ e, jsMapGet st.entries change.key = some e ∧
        compareTimestamps e.timestamp change.timestamp < 0) ∧
    ((LWWMap.applyRemote wallClock st change).1 = true →
      ((LWWMap.applyRemote wallClock st change).2).entries =
        jsMapSet st.entries change.key change.toEntry ∧
      ((LWWMap.applyRemote wallClock st change).2).notifications =
        st.notifications + 1) ∧
    ((LWWMap.applyRemote wallClock st change).1 = false →
      ((LWWMap.applyRemote wallClock st change).2).entries = st.entries ∧
      ((LWWMap.applyRemote wallClock st change).2).notifications =
        st.notifications) := by
  cases hg : jsMapGet st.entries change.key with
  | none =>
    have hres : LWWMap.applyRemote wallClock st change =
        (true,
          { entries := jsMapSet st.entries change.key change.toEntry,
            clock := (HLC.receive wallClock st.clock change.timestamp).2,
            notifications := st.notifications + 1 }) := by
      unfold LWWMap.applyRemote
      simp only [hg]
    rw [hres]
    refine ⟨rfl, ⟨fun _ => Or.inl rfl, fun _ => rfl⟩, ?_, ?_⟩
    · intro _; exact ⟨rfl, rfl⟩
    · intro h; exact absurd h (by simp)
  | some e =>
    by_cases hcmp : compareTimestamps e.timestamp change.timestamp ≥ 0
    · have hres : LWWMap.applyRemote wallClock st change =
          (false,
            { entries := st.entries,
              clock := (HLC.receive wallClock st.clock change.timestamp).2,
              notifications := st.notifications }) := by
        unfold LWWMap.applyRemote
        simp only [hg]
        rw [if_pos hcmp]
      rw [hres]
      refine ⟨rfl, ?_, ?_, ?_⟩
      · constructor
        · intro h; exact absurd h (by simp)
        · rintro (h | ⟨e', he', hcmp'⟩)
          · exact absurd h (by simp)
          · rw [← Option.some.inj he'] at hcmp'
            exact absurd hcmp' (by omega)
      · intro h; exact absurd h (by simp)
      · intro _; exact ⟨rfl, rfl⟩
    · have hres : LWWMap.applyRemote wallClock st change =
          (true,
            { entries := jsMapSet st.entries change.key change.toEntry,
              clock := (HLC.receive wallClock st.clock change.timestamp).2,
              notifications := st.notifications + 1 }) := by
        unfold LWWMap.applyRemote
        simp only [hg]
        rw [if_neg hcmp]
      rw [hres]
      refine ⟨rfl, ⟨fun _ => Or.inr ⟨e, rfl, by omega⟩, fun _ => rfl⟩, ?_, ?_⟩
      · intro _; exact ⟨rfl, rfl⟩
      · intro h; exact absurd h (by simp)

/-- Sample map state holding one older entry under key "k", for the
applyRemote postcondition witness. -/
def applyRemoteSampleMap : LWWMap String :=
  { entries := [("k", ⟨"old", ⟨10, 0, "m"⟩, false⟩)],
    clock := ⟨10, 0, "m"⟩,
    notifications := 1 }

/-- Sample newer remote change for the applyRemote postcondition witness. -/
def applyRemoteSampleChange : CRDTChange String :=
  ⟨"k", "new", ⟨20, 0, "b"⟩, false⟩

/-- Witness for applyRemote_postcondition at a concrete accepted change. -/
theorem applyRemote_postcondition_witness :
    (LWWMap.applyRemote 15 applyRemoteSampleMap applyRemoteSampleChange).1 =
      true ∧
    ((LWWMap.applyRemote 15 applyRemoteSampleMap applyRemoteSampleChange).2).entries =
      jsMapSet applyRemoteSampleMap.entries "k" applyRemoteSampleChange.toEntry ∧
    ((LWWMap.applyRemote 15 applyRemoteSampleMap applyRemoteSampleChange).2).clock =
      (HLC.receive 15 applyRemoteSampleMap.clock
        applyRemoteSampleChange.timestamp).2 := by
  have h := applyRemote_postcondition 15 applyRemoteSampleMap applyRemoteSampleChange
  have hacc : (LWWMap.applyRemote 15 applyRemoteSampleMap
      applyRemoteSampleChange).1 = true := by decide
  exact ⟨hacc, (h.2.2.1 hacc).1, h.1⟩

theorem jsMapGet_none_of_not_key {α : Type} :
    ∀ (l : List (String × α)) (k : String),
      k ∉ l.map Prod.fst → jsMapGet l k = none := by
  intro l
  induction l with
  | nil => intro k _; rfl
  | cons p rest ih =>
    intro k hk
    obtain ⟨k0, v0⟩ := p
    simp only [List.map_cons, List.mem_cons] at hk
    push_neg at hk
    simp only [jsMapGet]
    rw [if_neg (fun e => hk.1 e.symm)]
    exact ih k hk.2

theorem jsMapGet_map_value {α β : Type} (f : α → β) :
    ∀ (l : List (String × α)) (k : String),
      jsMapGet (l.map (fun p => (p.1, f p.2))) k =
        Option.map f (jsMapGet l k) := by
  intro l
  induction l with
  | nil => intro k; rfl
  | cons p rest ih =>
    intro k
    obtain ⟨k0, v0⟩ := p
    simp only [List.map_cons, jsMapGet]
    by_cases h : k0 = k
    · rw [if_pos h, if_pos h]
      rfl
    · rw [if_neg h, if_neg h]
      exact ih k

theorem jsMapGet_filter {α : Type} (p : String × α → Bool) :
    ∀ (l : List (String × α)) (k : String), (l.map Prod.fst).Nodup →
      jsMapGet (l.filter p) k =
        match jsMapGet l k with
        | none => none
        | some v => if p (k, v) then some v else none := by
  intro l
  induction l with
  | nil => intro k _; rfl
  | cons hd rest ih =>
    intro k hnd
    obtain ⟨k0, v0⟩ := hd
    simp only [List.map_cons, List.nodup_cons] at hnd
    obtain ⟨hk0, hrest⟩ := hnd
    by_cases h : k0 = k
    · subst h
      rw [show jsMapGet ((k0, v0) :: rest) k0 = some v0 by
        simp [jsMapGet]]
      by_cases hp : p (k0, v0)
      · rw [List.filter_cons_of_pos hp]
        simp [jsMapGet, hp]
      · rw [List.filter_cons_of_neg (by simpa using hp)]
        have hnone : jsMapGet (rest.filter p) k0 = none := by
          apply jsMapGet_none_of_not_key
          intro hmem
          apply hk0
          obtain ⟨q, hq, hqk⟩ := List.mem_map.mp hmem
          rw [← hqk]
          exact List.mem_map_of_mem Prod.fst (List.mem_of_mem_filter hq)
        rw [hnone]
        show none = if p (k0, v0) then some v0 else none
        rw [if_neg hp]
    · rw [show jsMapGet ((k0, v0) :: rest) k = jsMapGet rest k by
        simp [jsMapGet, h]]
      by_cases hp : p (k0, v0)
      · rw [List.filter_cons_of_pos hp]
        rw [show jsMapGet ((k0, v0) :: rest.filter p) k =
            jsMapGet (rest.filter p) k by simp [jsMapGet, h]]
        exact ih k hrest
      · rw [List.filter_cons_of_neg (by simpa using hp)]
        exact ih k hrest

theorem mergeLoop_entries_lookup {α : Type} :
    ∀ (remote : List (String × LWWEntry α)) (wc : Nat → Nat) (st : LWWMap α)
      (k : String), (remote.map Prod.fst).Nodup →
      jsMapGet ((LWWMap.mergeLoop wc st remote).1).entries k =
        match jsMapGet remote k with
        | none => jsMapGet st.entries k
        | some re =>
          match jsMapGet st.entries k with
          | none => some re
          | some le =>
            if compareTimestamps le.timestamp re.timestamp < 0 then some re
            else some le := by
  intro remote
  induction remote with
  | nil => intro wc st k _; rfl
  | cons hd rest ih =>
    intro wc st k hnd
    obtain ⟨k0, re0⟩ := hd
    simp only [List.map_cons, List.nodup_cons] at hnd
    obtain ⟨hk0, hrest⟩ := hnd
    rw [show jsMapGet ((k0, re0) :: rest) k =
        if k0 = k then some re0 else jsMapGet rest k from rfl]
    cases hg : jsMapGet st.entries k0 with
    | none =>
      have hL : (LWWMap.mergeLoop wc st ((k0, re0) :: rest)).1 =
          (LWWMap.mergeLoop (fun i => wc (i + 1))
            { entries := jsMapSet st.entries k0 re0,
              clock := (HLC.receive (wc 0) st.clock re0.timestamp).2,
              notifications := st.notifications } rest).1 := by
        simp only [LWWMap.mergeLoop, hg]
      rw [hL, ih (fun i => wc (i + 1)) _ k hrest]
      by_cases hkey : k0 = k
      · subst hkey
        rw [if_pos rfl, jsMapGet_none_of_not_key rest k0 hk0]
        show jsMapGet (jsMapSet st.entries k0 re0) k0 = _
        rw [jsMapGet_set_self, hg]
      · rw [if_neg hkey]
        have hse : jsMapGet (jsMapSet st.entries k0 re0) k =
            jsMapGet st.entries k :=
          jsMapGet_set_ne _ _ _ _ (fun e => hkey (Eq.symm e))
        have hse' : jsMapGet
            (({ entries := jsMapSet st.entries k0 re0,
                clock := (HLC.receive (wc 0) st.clock re0.timestamp).2,
                notifications := st.notifications } : LWWMap α)).entries k =
            jsMapGet st.entries k := hse
        rw [hse']
    | some le0 =>
      by_cases hcmp : compareTimestamps le0.timestamp re0.timestamp < 0
      · have hL : (LWWMap.mergeLoop wc st ((k0, re0) :: rest)).1 =
            (LWWMap.mergeLoop (fun i => wc (i + 1))
              { entries := jsMapSet st.entries k0 re0,
                clock := (HLC.receive (wc 0) st.clock re0.timestamp).2,
                notifications := st.notifications } rest).1 := by
          simp only [LWWMap.mergeLoop, hg]
          rw [if_pos hcmp]
        rw [hL, ih (fun i => wc (i + 1)) _ k hrest]
        by_cases hkey : k0 = k
        · subst hkey
          rw [if_pos rfl, jsMapGet_none_of_not_key rest k0 hk0]
          show jsMapGet (jsMapSet st.entries k0 re0) k0 = _
          rw [jsMapGet_set_self, hg]
          show some re0 =
            if compareTimestamps le0.timestamp re0.timestamp < 0 then some re0
            else some le0
          rw [if_pos hcmp]
        · rw [if_neg hkey]
          have hse : jsMapGet (jsMapSet st.entries k0 re0) k =
              jsMapGet st.entries k :=
            jsMapGet_set_ne _ _ _ _ (fun e => hkey (Eq.symm e))
          have hse' : jsMapGet
              (({ entries := jsMapSet st.entries k0 re0,
                  clock := (HLC.receive (wc 0) st.clock re0.timestamp).2,
                  notifications := st.notifications } : LWWMap α)).entries k =
              jsMapGet st.entries k := hse
          rw [hse']
      · have hL : (LWWMap.mergeLoop wc st ((k0, re0) :: rest)).1 =
            (LWWMap.mergeLoop (fun i => wc (i + 1))
              { st with
                clock := (HLC.receive (wc 0) st.clock re0.timestamp).2 } rest).1 := by
          simp only [LWWMap.mergeLoop, hg]
          rw [if_neg hcmp]
        rw [hL, ih (fun i => wc (i + 1)) _ k hrest]
        by_cases hkey : k0 = k
        · subst hkey
          rw [if_pos rfl, jsMapGet_none_of_not_key rest k0 hk0]
          show jsMapGet st.entries k0 = _
          rw [hg]
          show some le0 =
            if compareTimestamps le0.timestamp re0.timestamp < 0 then some re0
            else some le0
          rw [if_neg hcmp]
        · rw [if_neg hkey]

theorem merge_entries {α : Type} (wc : Nat → Nat) (st : LWWMap α)
    (remote : List (String × LWWEntry α)) :
    ((LWWMap.merge wc st remote).1).entries =
      ((LWWMap.mergeLoop wc st remote).1).entries := by
  simp only [LWWMap.merge]
  split <;> rfl

theorem diffFrom_keys_nodup {α : Type} (st : LWWMap α)
    (known : List (String × HLCTimestamp))
    (h : (st.entries.map Prod.fst).Nodup) :
    ((LWWMap.diffFrom st known).map Prod.fst).Nodup := by
  unfold LWWMap.diffFrom
  exact List.Nodup.sublist ((List.filter_sublist st.entries).map Prod.fst) h

/-- C4: anti-entropy round trip. After B merges A's diff against B's
known-entry map, every key A holds an entry for is present in B with the
timestamp that is the maximum, under compareTimestamps, of A's entry and
B's prior entry for that key (A's timestamp when B had none). -/
theorem anti_entropy_roundtrip {α : Type} (stA stB : LWWMap α)
    (hA : (stA.entries.map Prod.fst).Nodup) (wc : Nat → Nat) (k : String)
    (eA : LWWEntry α) (hgetA : jsMapGet stA.entries k = some eA) :
    ∃ e', jsMapGet ((LWWMap.merge wc stB
        (LWWMap.diffFrom stA (LWWMap.getKnownEntries stB))).1).entries k =
      some e' ∧
      e'.timestamp =
        (match jsMapGet stB.entries k with
        | none => eA.timestamp
        | some eB =>
          if 0 ≤ compareTimestamps eB.timestamp eA.timestamp then eB.timestamp
          else eA.timestamp) := by
  have hknown : jsMapGet (LWWMap.getKnownEntries stB) k =
      Option.map (fun e => e.timestamp) (jsMapGet stB.entries k) :=
    jsMapGet_map_value _ stB.entries k
  have hdiff := jsMapGet_filter
    (fun p =>
      match jsMapGet (LWWMap.getKnownEntries stB) p.1 with
      | none => true
      | some remoteTs => decide (0 < compareTimestamps p.2.timestamp remoteTs))
    stA.entries k hA
  rw [hgetA] at hdiff
  have hdiff' : jsMapGet
      (LWWMap.diffFrom stA (LWWMap.getKnownEntries stB)) k =
      if (match jsMapGet (LWWMap.getKnownEntries stB) k with
          | none => true
          | some remoteTs =>
            decide (0 < compareTimestamps eA.timestamp remoteTs)) = true then
        some eA
      else none := hdiff
  rw [merge_entries, mergeLoop_entries_lookup
    (LWWMap.diffFrom stA (LWWMap.getKnownEntries stB)) wc stB k
    (diffFrom_keys_nodup stA _ hA)]
  cases hB : jsMapGet stB.entries k with
  | none =>
    rw [hB] at hknown
    have hknown' : jsMapGet (LWWMap.getKnownEntries stB) k = none := hknown
    rw [hknown'] at hdiff'
    have hdiff2 : jsMapGet
        (LWWMap.diffFrom stA (LWWMap.getKnownEntries stB)) k = some eA :=
      hdiff'
    rw [hdiff2]
    exact ⟨eA, rfl, rfl⟩
  | some eB =>
    rw [hB] at hknown
    have hknown' : jsMapGet (LWWMap.getKnownEntries stB) k =
        some eB.timestamp := hknown
    rw [hknown'] at hdiff'
    by_cases hcmp : 0 < compareTimestamps eA.timestamp eB.timestamp
    · have hflip : compareTimestamps eB.timestamp eA.timestamp < 0 := by
        rw [compareTimestamps_flip]
        omega
      have hdiff2 : jsMapGet
          (LWWMap.diffFrom stA (LWWMap.getKnownEntries stB)) k = some eA := by
        rw [hdiff']
        simp [hcmp]
      rw [hdiff2]
      refine ⟨eA, ?_, ?_⟩
      · show (if compareTimestamps eB.timestamp eA.timestamp < 0 then some eA
          else some eB) = some eA
        rw [if_pos hflip]
      · show eA.timestamp =
          if 0 ≤ compareTimestamps eB.timestamp eA.timestamp then eB.timestamp
          else eA.timestamp
        rw [if_neg (by omega)]
    · have hge : 0 ≤ compareTimestamps eB.timestamp eA.timestamp := by
        rw [compareTimestamps_flip]
        omega
      have hdiff2 : jsMapGet
          (LWWMap.diffFrom stA (LWWMap.getKnownEntries stB)) k = none := by
        rw [hdiff']
        simp [hcmp]
      rw [hdiff2]
      refine ⟨eB, rfl, ?_⟩
      show eB.timestamp =
        if 0 ≤ compareTimestamps eB.timestamp eA.timestamp then eB.timestamp
        else eA.timestamp
      rw [if_pos hge]

/-- Sample map A for the anti-entropy witness: two live entries. -/
def antiEntropySampleA : LWWMap String :=
  { entries := [("x", ⟨"ax", ⟨5, 0, "a"⟩, false⟩),
                ("y", ⟨"ay", ⟨1, 0, "a"⟩, false⟩)],
    clock := ⟨5, 0, "a"⟩,
    notifications := 2 }

/-- Sample map B for the anti-entropy witness: knows only key "y". -/
def antiEntropySampleB : LWWMap String :=
  { entries := [("y", ⟨"by", ⟨3, 0, "b"⟩, false⟩)],
    clock := ⟨3, 0, "b"⟩,
    notifications := 1 }

/-- Witness for anti_entropy_roundtrip at a concrete instance. -/
theorem anti_entropy_roundtrip_witness :
    ∃ e', jsMapGet ((LWWMap.merge (fun _ => 0) antiEntropySampleB
        (LWWMap.diffFrom antiEntropySampleA
          (LWWMap.getKnownEntries antiEntropySampleB))).1).entries "x" =
      some e' ∧
      e'.timestamp =
        (match jsMapGet antiEntropySampleB.entries "x" with
        | none => (⟨"ax", ⟨5, 0, "a"⟩, false⟩ : LWWEntry String).timestamp
        | some eB =>
          if 0 ≤ compareTimestamps eB.timestamp
              (⟨"ax", ⟨5, 0, "a"⟩, false⟩ : LWWEntry String).timestamp then
            eB.timestamp
          else (⟨"ax", ⟨5, 0, "a"⟩, false⟩ : LWWEntry String).timestamp) :=
  anti_entropy_roundtrip antiEntropySampleA antiEntropySampleB (by decide)
    (fun _ => 0) "x" ⟨"ax", ⟨5, 0, "a"⟩, false⟩ (by decide)

/-- Embedding of the initiation decision in PeerManager.handlePeerJoin
(manager.ts lines 257-265): on observing a join from remotePeerId, an
offer is initiated exactly when the peer is not already tracked and the
local peer id is lexicographically greater than the remote id. -/
def handlePeerJoin_initiates (peers : List String)
    (selfId remotePeerId : String) : Bool :=
  if remotePeerId ∈ peers then false
  else if selfId > remotePeerId then true
  else false

/-- C5: glare-free initiation. For distinct peer ids p and q, each not yet
tracking the other, the peer with the lexicographically greater id is
exactly the one that initiates an offer on observing the other's join, so
exactly one offer is sent per pair and the smaller id never initiates. -/
theorem glare_free_initiation (p q : String) (peersP peersQ : List String)
    (hpq : p ≠ q) (hP : q ∉ peersP) (hQ : p ∉ peersQ) :
    handlePeerJoin_initiates peersP p q = decide (q < p) ∧
    handlePeerJoin_initiates peersQ q p = decide (p < q) ∧
    handlePeerJoin_initiates peersP p q ≠
      handlePeerJoin_initiates peersQ q p := by
  have h1 : handlePeerJoin_initiates peersP p q = decide (q < p) := by
    unfold handlePeerJoin_initiates
    rw [if_neg hP]
    by_cases h : q < p
    · rw [if_pos h, decide_eq_true h]
    · rw [if_neg h, decide_eq_false h]
  have h2 : handlePeerJoin_initiates peersQ q p = decide (p < q) := by
    unfold handlePeerJoin_initiates
    rw [if_neg hQ]
    by_cases h : p < q
    · rw [if_pos h, decide_eq_true h]
    · rw [if_neg h, decide_eq_false h]
  refine ⟨h1, h2, ?_⟩
  rw [h1, h2]
  rcases lt_or_gt_of_ne hpq with h | h
  · rw [decide_eq_false (lt_asymm h), decide_eq_true h]
    simp
  · rw [decide_eq_true h, decide_eq_false (lt_asymm h)]
    simp

/-- Witness for glare_free_initiation with ids "a" and "b". -/
theorem glare_free_initiation_witness :
    handlePeerJoin_initiates [] "b" "a" = decide (("a" : String) < "b") ∧
    handlePeerJoin_initiates [] "a" "b" = decide (("b" : String) < "a") ∧
    handlePeerJoin_initiates [] "b" "a" ≠
      handlePeerJoin_initiates [] "a" "b" :=
  glare_free_initiation "b" "a" [] [] (by decide) (by decide) (by decide)

/-- Connection states from types.ts, PeerConnectionState. -/
inductive PeerConnectionState where
  | new
  | connecting
  | connected
  | disconnected
  | failed
  | closed
deriving DecidableEq

/-- Events the Peer Manager surfaces through its configured callbacks. -/
inductive PMEvent where
  | peerConnected (peerId : String)
  | peerDisconnected (peerId : String)
deriving DecidableEq

/-- Embedding of the onStateChange callback installed by
PeerManager.createPeerConnection (manager.ts lines 343-349): it reports
connected as onPeerConnected and disconnected/failed as
onPeerDisconnected, and does not modify the peer map. The first component
is the peer map afterwards, the second the emitted events. -/
def peerManagerOnStateChange (peers : List String) (remotePeerId : String)
    (state : PeerConnectionState) : List String × List PMEvent :=
  match state with
  | PeerConnectionState.connected =>
    (peers, [PMEvent.peerConnected remotePeerId])
  | PeerConnectionState.disconnected =>
    (peers, [PMEvent.peerDisconnected remotePeerId])
  | PeerConnectionState.failed =>
    (peers, [PMEvent.peerDisconnected remotePeerId])
  | _ => (peers, [])

/-- Embedding of PeerManager.handlePeerLeave (manager.ts lines 267-274):
an untracked peer is a no-op; a tracked peer is closed, removed from the
map and reported through onPeerDisconnected. -/
def handlePeerLeave (peers : List String) (remotePeerId : String) :
    List String × List PMEvent :=
  if remotePeerId ∈ peers then
    (peers.erase remotePeerId, [PMEvent.peerDisconnected remotePeerId])
  else (peers, [])

/-- Counterexample to C6 as stated: when peer "p" reports the failed
state, the manager surfaces peer-disconnected but the peer map still
lists "p", so getPeers() still contains it, unlike an explicit leave
which removes it. -/
theorem peer_failed_removal_counterexample :
    "p" ∈ (peerManagerOnStateChange ["p"] "p"
      PeerConnectionState.failed).1 ∧
    (peerManagerOnStateChange ["p"] "p" PeerConnectionState.failed).2 =
      [PMEvent.peerDisconnected "p"] ∧
    (handlePeerLeave ["p"] "p").1 = [] := by
  decide

/-- C6 (amended): on a failed connection state the Peer Manager surfaces
the peer-disconnected event but leaves the active peer map unchanged;
the entry is removed only by an explicit leave message (or detach /
offer replacement). -/
theorem peer_failed_removal (peers : List String) (remotePeerId : String) :
    peerManagerOnStateChange peers remotePeerId PeerConnectionState.failed =
      (peers, [PMEvent.peerDisconnected remotePeerId]) ∧
    (remotePeerId ∈ peers →
      handlePeerLeave peers remotePeerId =
        (peers.erase remotePeerId,
          [PMEvent.peerDisconnected remotePeerId])) := by
  constructor
  · rfl
  · intro h
    unfold handlePeerLeave
    rw [if_pos h]

/-- Witness for peer_failed_removal at a concrete peer map. -/
theorem peer_failed_removal_witness :
    peerManagerOnStateChange ["p", "q"] "p" PeerConnectionState.failed =
      (["p", "q"], [PMEvent.peerDisconnected "p"]) ∧
    handlePeerLeave ["p", "q"] "p" =
      (["q"], [PMEvent.peerDisconnected "p"]) := by
  have h := peer_failed_removal ["p", "q"] "p"
  exact ⟨h.1, (h.2 (by decide)).trans (by decide)⟩

/-- Embedding of LWWMap.notify (lww-map.ts lines 184-188): the listeners
are invoked in registration order with no exception guard, so a throwing
listener propagates its exception and the remaining listeners are not
invoked. Each listener is represented by the Except outcome its
invocation would produce; the result is how many listeners were actually
invoked, paired with the propagated outcome. -/
def notifyListeners : List (Except String Unit) → Nat × Except String Unit
  | [] => (0, Except.ok ())
  | r :: rest =>
    match r with
    | Except.ok _ =>
      let p := notifyListeners rest
      (p.1 + 1, p.2)
    | Except.error e => (1, Except.error e)

/-- C7 evaluated at the failing input: with two subscribers of which the
first throws, notify invokes only one of the two — the exception
propagates and suppresses the second subscriber, contradicting the
claimed per-listener failure isolation. When no listener throws, all of
them are invoked exactly once. -/
theorem notify_throw_skips_rest :
    notifyListeners [Except.error "boom", Except.ok ()] =
      (1, Except.error "boom") ∧
    (notifyListeners [Except.error "boom", Except.ok ()]).1 ≠ 2 ∧
    (∀ n : Nat,
      notifyListeners (List.replicate n (Except.ok ())) = (n, Except.ok ())) := by
  refine ⟨rfl, by decide, ?_⟩
  intro n
  induction n with
  | zero => rfl
  | succ m ih =>
    rw [List.replicate_succ]
    show ((notifyListeners (List.replicate m (Except.ok ()))).1 + 1,
      (notifyListeners (List.replicate m (Except.ok ()))).2) = (m + 1, Except.ok ())
    rw [ih]

/-- Embedding of SyncEngine.handleSyncRequest (sync-engine.ts lines
171-207) as a function of the local document for the requested id (none
when no such document is registered) and the remote's declared knowledge.
Returns the entries of the sync-response that is always sent, and, when a
counter sync-request is issued, its knownEntries payload. The counter
request is issued only when the document exists and some declared remote
key is absent locally. -/
def handleSyncRequest {α : Type} (doc : Option (LWWMap α))
    (knownEntries : List (String × HLCTimestamp)) :
    List (String × LWWEntry α) × Option (List (String × HLCTimestamp)) :=
  let missingEntries := match doc with
    | some d => LWWMap.diffFrom d knownEntries
    | none => []
  let counter := match doc with
    | none => none
    | some d =>
      let ourKnown := LWWMap.getKnownEntries d
      let weNeed := (knownEntries.map Prod.fst).filter
        (fun key => (jsMapGet ourKnown key).isNone)
      if weNeed.length > 0 then some ourKnown else none
  (missingEntries, counter)

/-- C8 evaluated at the failing input: a sync-request for a document this
node has not registered, whose sender declares knowledge of key "k". The
code replies with an empty sync-response and issues no counter
sync-request, although this node is missing everything the remote
declared; with the same document registered but empty, the counter
request is issued. -/
theorem sync_request_missing_doc_no_counter :
    handleSyncRequest (α := String) none [("k", ⟨1, 0, "a"⟩)] = ([], none) ∧
    handleSyncRequest (some (LWWMap.seed (α := String) "m"))
      [("k", ⟨1, 0, "a"⟩)] = ([], some []) := by
  constructor
  · rfl
  · rfl

/-- JavaScript truthiness of an optional string: undefined and the empty
string are falsy. -/
def jsTruthyString : Option String → Bool
  | none => false
  | some s => !(s == "")

/-- Embedding of the inbound-message filter installed by
BroadcastSignaling.join (broadcast.ts lines 221-228): a message is
handed to the registered handler unless its senderId equals the own peer
id, or its targetId is truthy and differs from the own peer id. -/
def broadcastShouldDeliver (selfId senderId : String)
    (targetId : Option String) : Bool :=
  if senderId = selfId then false
  else if jsTruthyString targetId && !(targetId == some selfId) then false
  else true

/-- Embedding of the inbound-message filter installed by
WebSocketSignaling.connect (websocket.ts lines 95-106); the filtering
logic is identical to the broadcast transport's. -/
def websocketShouldDeliver (selfId senderId : String)
    (targetId : Option String) : Bool :=
  if senderId = selfId then false
  else if jsTruthyString targetId && !(targetId == some selfId) then false
  else true

/-- Counterexample to C9 as stated: a message from sender "b" carrying
the empty-string targetId, which differs from the own peer id "a", is
nevertheless delivered by both transports, because the JavaScript
truthiness check treats an empty targetId like an absent one. -/
theorem signaling_filter_counterexample :
    broadcastShouldDeliver "a" "b" (some "") = true ∧
    websocketShouldDeliver "a" "b" (some "") = true ∧
    some "" ≠ some "a" := by
  decide

/-- C9 (amended): for both reference transports the handler is invoked
exactly when the sender is not the own peer id and the targetId is
absent, empty, or equal to the own peer id; in particular a non-empty
targetId different from the own id is never delivered, and own messages
are never delivered. -/
theorem signaling_filter (selfId senderId : String)
    (targetId : Option String) :
    (broadcastShouldDeliver selfId senderId targetId = true ↔
      (senderId ≠ selfId ∧
        (targetId = none ∨ targetId = some "" ∨ targetId = some selfId))) ∧
    websocketShouldDeliver selfId senderId targetId =
      broadcastShouldDeliver selfId senderId targetId := by
  refine ⟨?_, rfl⟩
  unfold broadcastShouldDeliver
  by_cases hs : senderId = selfId
  · rw [if_pos hs]
    simp [hs]
  · rw [if_neg hs]
    cases targetId with
    | none =>
      simp [jsTruthyString, hs]
    | some t =>
      by_cases ht : t = ""
      · subst ht
        simp [jsTruthyString, hs]
      · by_cases hself : t = selfId
        · subst hself
          simp [jsTruthyString, hs]
        · simp [jsTruthyString, hs, ht, hself]

/-- Operations driving one sync engine: handle mutations (with their
Date.now() readings) and connection lifecycle calls. -/
inductive EngineOp (α : Type) where
  | setOp (wallClock : Nat) (key : String) (value : α)
  | deleteOp (wallClock : Nat) (key : String)
  | connectOp
  | disconnectOp
deriving DecidableEq

/-- Engine state relevant to local mutation and broadcasting: the
connected flag (sync-engine.ts line 49) and one document's LWW-Map. -/
structure SyncEngineState (α : Type) where
  connected : Bool
  doc : LWWMap α
deriving DecidableEq

/-- Embedding of one engine step: SyncDocumentHandle.set and delete
(sync-engine.ts lines 306-318) mutate the map and hand the change to
broadcastChanges (lines 260-271), which drops it unless the engine is
connected; connect and disconnect (lines 68-85) toggle the flag and
broadcast nothing. The second component is the list of change payloads
broadcast to peers during the step. -/
def engineStep {α : Type} (st : SyncEngineState α) :
    EngineOp α → SyncEngineState α × List (List (CRDTChange α))
  | EngineOp.setOp wc k v =>
    let r := LWWMap.set wc st.doc k v
    ({ st with doc := r.2 }, if st.connected then [[r.1]] else [])
  | EngineOp.deleteOp wc k =>
    let r := LWWMap.delete wc st.doc k
    ({ st with doc := r.2 },
      match r.1 with
      | some c => if st.connected then [[c]] else []
      | none => [])
  | EngineOp.connectOp => ({ st with connected := true }, [])
  | EngineOp.disconnectOp => ({ st with connected := false }, [])

/-- Run a sequence of engine operations, collecting every broadcast
change payload in order. -/
def runEngine {α : Type} (st : SyncEngineState α) :
    List (EngineOp α) → SyncEngineState α × List (List (CRDTChange α))
  | [] => (st, [])
  | op :: ops =>
    let p := engineStep st op
    let r := runEngine p.1 ops
    (r.1, p.2 ++ r.2)

/-- C10: mutations while disconnected are local-only and never replayed.
A set always mutates the local map and fires its notification regardless
of the connected flag; the change payload is broadcast exactly when the
engine is connected; a delete behaves the same on its non-no-op path; and
a set performed while disconnected contributes no broadcast at any later
point of any continuation — the subsequent traffic is exactly that of the
continuation run from the mutated state, so nothing is queued or
replayed. -/
theorem offline_mutations_local_only {α : Type} (st : SyncEngineState α)
    (wc : Nat) (k : String) (v : α) :
    ((engineStep st (EngineOp.setOp wc k v)).1).doc =
      (LWWMap.set wc st.doc k v).2 ∧
    ((engineStep st (EngineOp.setOp wc k v)).1).doc.notifications =
      st.doc.notifications + 1 ∧
    (engineStep st (EngineOp.setOp wc k v)).2 =
      (if st.connected then [[(LWWMap.set wc st.doc k v).1]] else []) ∧
    ((engineStep st (EngineOp.deleteOp wc k)).1).doc =
      (LWWMap.delete wc st.doc k).2 ∧
    (engineStep st (EngineOp.deleteOp wc k)).2 =
      (match (LWWMap.delete wc st.doc k).1 with
      | some c => if st.connected then [[c]] else []
      | none => []) ∧
    (st.connected = false → ∀ ops : List (EngineOp α),
      (runEngine st (EngineOp.setOp wc k v :: ops)).2 =
        (runEngine { st with doc := (LWWMap.set wc st.doc k v).2 } ops).2) := by
  refine ⟨rfl, rfl, rfl, rfl, rfl, ?_⟩
  intro hdisc ops
  show ((engineStep st (EngineOp.setOp wc k v)).2 ++
      (runEngine (engineStep st (EngineOp.setOp wc k v)).1 ops).2) = _
  rw [show (engineStep st (EngineOp.setOp wc k v)).2 =
      (if st.connected then [[(LWWMap.set wc st.doc k v).1]] else []) from rfl]
  rw [hdisc]
  rw [if_neg (by simp)]
  have hst : (engineStep st (EngineOp.setOp wc k v)).1 =
      ({ connected := false,
         doc := (LWWMap.set wc st.doc k v).2 } : SyncEngineState α) := by
    have hexp : (engineStep st (EngineOp.setOp wc k v)).1 =
        ({ connected := st.connected,
           doc := (LWWMap.set wc st.doc k v).2 } : SyncEngineState α) := rfl
    rw [hexp, hdisc]
  rw [hst]
  exact List.nil_append _

/-- Sample disconnected engine state for the offline-mutation witness. -/
def engineSample : SyncEngineState String :=
  { connected := false, doc := LWWMap.seed "m" }

/-- Witness for offline_mutations_local_only: a set performed while
disconnected broadcasts nothing, and a later connect does not replay it. -/
theorem offline_mutations_local_only_witness :
    (runEngine engineSample
        (EngineOp.setOp 1 "k" "v" :: [EngineOp.connectOp])).2 =
      (runEngine { engineSample with
          doc := (LWWMap.set 1 engineSample.doc "k" "v").2 }
        [EngineOp.connectOp]).2 ∧
    (engineStep engineSample (EngineOp.setOp 1 "k" "v")).2 = [] := by
  have h := offline_mutations_local_only engineSample 1 "k" "v"
  constructor
  · exact h.2.2.2.2.2 rfl [EngineOp.connectOp]
  · rw [h.2.2.1]
    rfl
